import Mathlib

set_option maxRecDepth 10000

/-!
Shallow embedding of `src/message_parser.py`: the incremental RESP parser
(`RESPParser`), the reply encoder (`RESPEncoder`) and the command dispatcher
(`CommandHandler`), together with theorems checking the specification's claims
against them.

Bytes are modelled as `Nat` (a Python `bytearray` element), buffers as
`List Nat`, Python `str` as Lean `String`, and frames (`List[str]`) as
`List String`.  Python slice/index semantics (negative indices counting from
the end, clamping) are modelled explicitly.
-/

/-- A byte buffer (`bytes` / `bytearray` contents); each element is one byte
of a Python `bytearray`. -/
abbrev Buf := List Nat

/-- A parsed command frame: `List[str]` in the source. -/
abbrev Frame := List String

/-! ## Python slice and index semantics -/

/-- Normalise a Python slice bound: a negative bound counts from the end,
and the result is clamped into `[0, n]`. -/
def clampIdx (n : Nat) (i : Int) : Nat :=
  if i < 0 then ((n : Int) + i).toNat else min i.toNat n

/-- Python slice `b[i:j]`. -/
def pySlice (b : Buf) (i j : Int) : Buf :=
  (b.drop (clampIdx b.length i)).take (clampIdx b.length j - clampIdx b.length i)

/-- Python `b[count:]`, as used by `RESPParser._consume_bytes`
(`self.buffer = self.buffer[count:]`). -/
def consumeBytes (b : Buf) (count : Int) : Buf :=
  pySlice b count (b.length : Int)

/-- Python indexing `b[i]`: a negative index counts from the end; `none`
models an `IndexError`.  The parser indexes the buffer only after the bound
check `start_pos >= len(buffer)`, and reachable positions never drop below
`-len(buffer)`, so the `none` case is never taken by `feed`. -/
def pyGet (b : Buf) (i : Int) : Option Nat :=
  if i < 0 then
    if (b.length : Int) + i < 0 then none else b.get? ((b.length : Int) + i).toNat
  else b.get? i.toNat

/-- Index (relative to the running index `i`) of the first `13 10` (`\r\n`)
pair in the buffer. -/
def scanCrlf : Buf → Nat → Option Nat
  | x :: y :: rest, i => if x = 13 ∧ y = 10 then some i else scanCrlf (y :: rest) (i + 1)
  | _, _ => none

/-- Python `buffer.index(b"\r\n", start)`; `none` models the `ValueError`
raised when there is no occurrence at or after `start`. -/
def findCrlfFrom (b : Buf) (start : Int) : Option Nat :=
  let s := if start < 0 then ((b.length : Int) + start).toNat else start.toNat
  (scanCrlf (b.drop s) 0).map (· + s)

/-- Index of the first occurrence of byte `t` (Python `buffer.index(b"\n")`). -/
def findByte : Buf → Nat → Option Nat
  | [], _ => none
  | x :: rest, t => if x = t then some 0 else (findByte rest t).map (· + 1)

/-! ## Python `int(bytes)` -/

/-- ASCII whitespace accepted around the numeral by Python's `int(bytes)`. -/
def isWsB (c : Nat) : Bool :=
  c = 32 || c = 9 || c = 10 || c = 13 || c = 11 || c = 12

/-- ASCII decimal digit. -/
def isDigitB (c : Nat) : Bool := 48 ≤ c && c ≤ 57

/-- Strip leading and trailing ASCII whitespace, as `int(bytes)` does. -/
def pyTrimWs (b : Buf) : Buf :=
  ((b.dropWhile isWsB).reverse.dropWhile isWsB).reverse

/-- Digits after the first one, allowing a single `_` between digits
(Python's numeral grammar). -/
def digitsCore : Buf → Nat → Option Nat
  | [], acc => some acc
  | c :: rest, acc =>
    if isDigitB c then digitsCore rest (acc * 10 + (c - 48))
    else if c = 95 then
      match rest with
      | d :: rest2 => if isDigitB d then digitsCore rest2 (acc * 10 + (d - 48)) else none
      | [] => none
    else none

/-- Value of an unsigned decimal numeral; `none` if malformed. -/
def digitsVal : Buf → Option Nat
  | [] => none
  | c :: rest => if isDigitB c then digitsCore rest (c - 48) else none

/-- Sign handling of `int(bytes)`, applied to the stripped numeral: an
optional `+` or `-` followed by the digits. -/
def pyIntCore : Buf → Option Int
  | [] => none
  | c :: r =>
    if c = 43 then (digitsVal r).map (fun n => (n : Int))
    else if c = 45 then (digitsVal r).map (fun n => -(n : Int))
    else (digitsVal (c :: r)).map (fun n => (n : Int))

/-- Python `int(bytes)`: optional surrounding ASCII whitespace, optional sign,
decimal digits (with `_` separators); `none` models the `ValueError`. -/
def pyInt (b : Buf) : Option Int := pyIntCore (pyTrimWs b)

/-- Worker for `natDec`.  The fuel only bounds the digit count: `n / 10`
strictly decreases, so fuel `n + 1` always suffices. -/
def natDecAux : Nat → Nat → Buf
  | 0, _ => []
  | fuel + 1, n => if n < 10 then [48 + n] else natDecAux fuel (n / 10) ++ [48 + n % 10]

/-- Decimal digits (ASCII bytes) of a natural number, as Python `str`
and f-strings print it. -/
def natDec (n : Nat) : Buf := natDecAux (n + 1) n

/-- Decimal form of an integer (`str(int)` in Python). -/
def intDec (z : Int) : Buf :=
  if z < 0 then 45 :: natDec (-z).toNat else natDec z.toNat

/-! ## UTF-8 encoding and decoding -/

/-- UTF-8 encoding of one Unicode scalar value (one character of
`str.encode("utf-8")`). -/
def encChar (c : Char) : Buf :=
  let v := c.toNat
  if v < 128 then [v]
  else if v < 2048 then [192 + v / 64, 128 + v % 64]
  else if v < 65536 then [224 + v / 4096, 128 + v / 64 % 64, 128 + v % 64]
  else [240 + v / 262144, 128 + v / 4096 % 64, 128 + v / 64 % 64, 128 + v % 64]

/-- Python `s.encode("utf-8")`. -/
def utf8Encode (s : String) : Buf := s.data.flatMap encChar

/-- A UTF-8 continuation byte. -/
def isCont (c : Nat) : Bool := 128 ≤ c && c ≤ 191

/-- Lower bound of the first continuation byte after lead byte `b0`
(UTF-8 validity table: `E0` needs `A0..BF`, `F0` needs `90..BF`). -/
def cont1lo (b0 : Nat) : Nat := if b0 = 224 then 160 else if b0 = 240 then 144 else 128

/-- Upper bound of the first continuation byte after lead byte `b0`
(`ED` allows `80..9F`, excluding surrogates; `F4` allows `80..8F`). -/
def cont1hi (b0 : Nat) : Nat := if b0 = 237 then 159 else if b0 = 244 then 143 else 191

/-- Python `bytes.decode("utf-8", errors="replace")` on a byte list: decode
UTF-8 and replace each invalid subsequence with U+FFFD. -/
def decodeChars : Buf → List Char
  | [] => []
  | b0 :: r =>
    if b0 < 128 then Char.ofNat b0 :: decodeChars r
    else if 194 ≤ b0 && b0 ≤ 223 then
      match r with
      | b1 :: r2 =>
        if isCont b1 then Char.ofNat ((b0 - 192) * 64 + (b1 - 128)) :: decodeChars r2
        else Char.ofNat 65533 :: decodeChars (b1 :: r2)
      | [] => [Char.ofNat 65533]
    else if 224 ≤ b0 && b0 ≤ 239 then
      match r with
      | b1 :: b2 :: r3 =>
        if cont1lo b0 ≤ b1 && b1 ≤ cont1hi b0 then
          if isCont b2 then
            Char.ofNat ((b0 - 224) * 4096 + (b1 - 128) * 64 + (b2 - 128)) :: decodeChars r3
          else Char.ofNat 65533 :: decodeChars (b2 :: r3)
        else Char.ofNat 65533 :: decodeChars (b1 :: b2 :: r3)
      | [b1] =>
        if cont1lo b0 ≤ b1 && b1 ≤ cont1hi b0 then [Char.ofNat 65533]
        else [Char.ofNat 65533, Char.ofNat 65533]
      | [] => [Char.ofNat 65533]
    else if 240 ≤ b0 && b0 ≤ 244 then
      match r with
      | b1 :: b2 :: b3 :: r4 =>
        if cont1lo b0 ≤ b1 && b1 ≤ cont1hi b0 then
          if isCont b2 then
            if isCont b3 then
              Char.ofNat ((b0 - 240) * 262144 + (b1 - 128) * 4096 + (b2 - 128) * 64 + (b3 - 128))
                :: decodeChars r4
            else Char.ofNat 65533 :: decodeChars (b3 :: r4)
          else Char.ofNat 65533 :: decodeChars (b2 :: b3 :: r4)
        else Char.ofNat 65533 :: decodeChars (b1 :: b2 :: b3 :: r4)
      | [b1, b2] =>
        if cont1lo b0 ≤ b1 && b1 ≤ cont1hi b0 then
          if isCont b2 then [Char.ofNat 65533]
          else [Char.ofNat 65533, Char.ofNat 65533]
        else Char.ofNat 65533 :: decodeChars (b1 :: b2 :: ([] : Buf))
      | [b1] =>
        if cont1lo b0 ≤ b1 && b1 ≤ cont1hi b0 then [Char.ofNat 65533]
        else [Char.ofNat 65533, Char.ofNat 65533]
      | [] => [Char.ofNat 65533]
    else Char.ofNat 65533 :: decodeChars r

/-- Python `bytes.decode("utf-8", errors="replace")` as a `String`. -/
def decodeUtf8 (b : Buf) : String := String.mk (decodeChars b)

/-! ## Python string helpers used by the source -/

/-- Whitespace for Python `str.strip()` / `str.split()` (ASCII subset; the
source only ever meets ASCII whitespace on these paths). -/
def isWsC (c : Char) : Bool :=
  c = ' ' || c = '\t' || c = '\n' || c = '\r' || c = '\x0b' || c = '\x0c'

/-- Python `str.strip()` (ASCII whitespace). -/
def pyStrip (s : String) : String :=
  String.mk (((s.data.dropWhile isWsC).reverse.dropWhile isWsC).reverse)

/-- Worker for `str.split()`: accumulate the current token (reversed). -/
def pySplitAux : List Char → List Char → List String
  | [], acc => if acc.isEmpty then [] else [String.mk acc.reverse]
  | c :: rest, acc =>
    if isWsC c then
      if acc.isEmpty then pySplitAux rest [] else String.mk acc.reverse :: pySplitAux rest []
    else pySplitAux rest (c :: acc)

/-- Python `str.split()` with no argument: split on whitespace runs,
producing no empty tokens. -/
def pySplit (s : String) : List String := pySplitAux s.data []

/-- Python `str.upper()` restricted to the ASCII case mapping (the source
only uppercases command names; Unicode special casings are outside this
model). -/
def upChar (c : Char) : Char :=
  if 'a' ≤ c && c ≤ 'z' then Char.ofNat (c.toNat - 32) else c

/-- Python `str.upper()` (ASCII case mapping). -/
def pyUpper (s : String) : String := String.mk (s.data.map upChar)

/-! ## `RESPParser` -/

/-- Model of `RESPParser._parse_bulk_string`: parse one `$<len>\r\n<payload>\r\n`
element at `startPos`, returning the element and the next position, or
`(none, startPos)` when it is incomplete or malformed. -/
def parseBulkString (b : Buf) (startPos : Int) : Option String × Int :=
  if startPos ≥ (b.length : Int) then (none, startPos)
  else
    match pyGet b startPos with
    | none => (none, startPos)
    | some c =>
      if c ≠ 36 then (none, startPos)
      else
        match findCrlfFrom b startPos with
        | none => (none, startPos)
        | some lengthEnd =>
          match pyInt (pySlice b (startPos + 1) (lengthEnd : Int)) with
          | none => (none, startPos)
          | some len =>
            if len = -1 then (some "", (lengthEnd : Int) + 2)
            else
              let contentStart : Int := (lengthEnd : Int) + 2
              let contentEnd : Int := contentStart + len
              if contentEnd + 2 > (b.length : Int) then (none, startPos)
              else
                let content := decodeUtf8 (pySlice b contentStart contentEnd)
                if pySlice b contentEnd (contentEnd + 2) = [13, 10] then
                  (some content, contentEnd + 2)
                else (none, startPos)

/-- The `for _ in range(array_length)` element loop of
`RESPParser._parse_resp_array`; `none` when any element is not yet parseable. -/
def parseElems (b : Buf) : Nat → Int → Option (List String × Int)
  | 0, pos => some ([], pos)
  | k + 1, pos =>
    match parseBulkString b pos with
    | (none, _) => none
    | (some s, pos2) =>
      match parseElems b k pos2 with
      | none => none
      | some (ss, e) => some (s :: ss, e)

/-- Model of `RESPParser._parse_resp_array`: parse one RESP array from the buffer
front, returning the frame (if complete) and the updated buffer. -/
def parseRespArray (b : Buf) : Option Frame × Buf :=
  match findCrlfFrom b 0 with
  | none => (none, b)
  | some firstCrlf =>
    match pyInt (pySlice b 1 (firstCrlf : Int)) with
    | none => (none, consumeBytes b ((firstCrlf : Int) + 2))
    | some arrayLength =>
      match parseElems b arrayLength.toNat ((firstCrlf : Int) + 2) with
      | none => (none, b)
      | some (elements, pos) => (some elements, consumeBytes b pos)

/-- Model of `RESPParser._parse_text_protocol`: the newline-delimited fallback.  The
source tries `b"\r\n"` over the whole buffer first, then a bare `b"\n"`. -/
def parseTextProtocol (b : Buf) : Option Frame × Buf :=
  match findCrlfFrom b 0 with
  | some e =>
    let line := pyStrip (decodeUtf8 (pySlice b 0 (e : Int)))
    let rest := consumeBytes b ((e : Int) + 2)
    if line ≠ "" then (some (pySplit line), rest) else (none, rest)
  | none =>
    match findByte b 10 with
    | some e =>
      let line := pyStrip (decodeUtf8 (pySlice b 0 (e : Int)))
      let rest := consumeBytes b ((e : Int) + 1)
      if line ≠ "" then (some (pySplit line), rest) else (none, rest)
    | none => (none, b)

/-- Model of `RESPParser._try_parse`: parse one frame, yielding the frame (if any)
and the buffer after the attempt (the attempt may consume bytes even when
it yields no frame: a malformed array header or an empty text line). -/
def tryParse (b : Buf) : Option Frame × Buf :=
  match b with
  | [] => (none, b)
  | c :: rest => if c = 42 then parseRespArray (c :: rest) else parseTextProtocol (c :: rest)

/-- The `while True` loop of `RESPParser.feed`.  The fuel only bounds the
iteration count: each iteration that yields a frame strictly shrinks the
buffer, so `length + 1` iterations always suffice. -/
def feedLoop : Nat → Buf → List Frame × Buf
  | 0, b => ([], b)
  | fuel + 1, b =>
    match tryParse b with
    | (none, b2) => ([], b2)
    | (some f, b2) =>
      let r := feedLoop fuel b2
      (f :: r.1, r.2)

/-- Model of `RESPParser.feed`: append `data` to the parser's buffer and extract
frames; the result is (frames returned by this call, buffer afterwards). -/
def feed (buffer data : Buf) : List Frame × Buf :=
  feedLoop (buffer.length + data.length + 1) (buffer ++ data)

/-- Feed a list of chunks in order to one parser, collecting the list of
frames returned by each call and the final buffer. -/
def feedChunks : Buf → List Buf → List (List Frame) × Buf
  | s, [] => ([], s)
  | s, c :: cs =>
    let r := feed s c
    let r2 := feedChunks r.2 cs
    (r.1 :: r2.1, r2.2)

/-! ## `RESPEncoder` -/

/-- Model of `RESPEncoder.encode_simple_string`: `f"+{s}\r\n".encode("utf-8")`. -/
def encode_simple_string (s : String) : Buf := utf8Encode ("+" ++ s ++ "\r\n")

/-- Model of `RESPEncoder.encode_error`: `f"-ERR {msg}\r\n".encode("utf-8")`. -/
def encode_error (msg : String) : Buf := utf8Encode ("-ERR " ++ msg ++ "\r\n")

/-- Model of `RESPEncoder.encode_bulk_string`; the `none` case is Python `None`
(`b"$-1\r\n"`), otherwise `f"${len(encoded)}\r\n"` + encoded + `b"\r\n"`. -/
def encode_bulk_string : Option String → Buf
  | none => [36, 45, 49, 13, 10]
  | some s => 36 :: natDec (utf8Encode s).length ++ [13, 10] ++ utf8Encode s ++ [13, 10]

/-! ## `CommandHandler` -/

/-- Model of `CommandHandler._handle_ping` (the `async` wrapper has no effect on the
returned value). -/
def handle_ping (args : List String) : Buf :=
  match args with
  | a :: _ => encode_bulk_string (some a)
  | [] => encode_simple_string "PONG"

/-- Model of `CommandHandler._handle_echo`. -/
def handle_echo (args : List String) : Buf :=
  match args with
  | [] => encode_bulk_string none
  | _ => encode_bulk_string (some (String.intercalate " " args))

/-- Model of `CommandHandler.handle_command`. -/
def handle_command (command : Frame) : Buf :=
  match command with
  | [] => encode_error "empty command"
  | c0 :: rest =>
    let cmdName := pyUpper c0
    if cmdName = "PING" then handle_ping rest
    else if cmdName = "ECHO" then handle_echo rest
    else encode_error ("unknown command \x27" ++ cmdName ++ "\x27")

/-! ## Wire-format descriptions (spec §6) -/

/-- Canonical wire form `$<len>\r\n<payload>\r\n` of one bulk string. -/
def bulkWire (p : Buf) : Buf := 36 :: natDec p.length ++ [13, 10] ++ p ++ [13, 10]

/-- Canonical wire form `*<N>\r\n` followed by `N` bulk strings. -/
def respWire (ps : List Buf) : Buf :=
  42 :: natDec ps.length ++ [13, 10] ++ (ps.map bulkWire).flatten

/-- The argument string a payload decodes to (`.decode("utf-8", errors="replace")`). -/
def decStr (p : Buf) : String := decodeUtf8 p

/-- The bytes of `b"*1\r\n$4\r\nPING\r\n"`. -/
def pingWire : Buf := [42, 49, 13, 10, 36, 52, 13, 10, 80, 73, 78, 71, 13, 10]

/-- A byte sequence that is exactly one complete frame: its first parse
attempt consumes the whole sequence, and its framing is CRLF-terminated, so
parsing it is unaffected by whatever bytes follow it in the buffer.  Either a
canonical RESP array, or one CR-free text line terminated by `\r\n`. -/
def CompleteFrame (w : Buf) (f : Frame) : Prop :=
  (∃ ps, w = respWire ps ∧ f = ps.map decStr) ∨
  (∃ line, w = line ++ [13, 10] ∧ line.head? ≠ some 42 ∧ 13 ∉ line ∧
    pyStrip (decodeUtf8 line) ≠ "" ∧ f = pySplit (pyStrip (decodeUtf8 line)))

/-! ## Loop lemmas -/

theorem tryParse_nil : tryParse [] = (none, []) := rfl

theorem feedLoop_nil : ∀ n, feedLoop n [] = ([], [])
  | 0 => rfl
  | _ + 1 => rfl

theorem feedLoop_succ_none {b b2 : Buf} (h : tryParse b = (none, b2)) (n : Nat) :
    feedLoop (n + 1) b = ([], b2) := by
  simp [feedLoop, h]

theorem feedLoop_succ_some {b b2 : Buf} {f : Frame} (h : tryParse b = (some f, b2)) (n : Nat) :
    feedLoop (n + 1) b = (f :: (feedLoop n b2).1, (feedLoop n b2).2) := by
  simp [feedLoop, h]

/-- Runs of the `while` loop that end with an empty buffer are insensitive to
extra fuel. -/
theorem feedLoop_extend : ∀ (n : Nat) {m : Nat} {b : Buf} {r : List Frame},
    n ≤ m → feedLoop n b = (r, []) → feedLoop m b = (r, []) := by
  intro n
  induction n with
  | zero =>
    intro m b r _ h0
    simp only [feedLoop] at h0
    injection h0 with h1 h2
    subst h2
    rw [feedLoop_nil m, h1]
  | succ k ih =>
    intro m b r hle h
    cases m with
    | zero => omega
    | succ m2 =>
      rcases htp : tryParse b with ⟨of, b2⟩
      cases of with
      | none =>
        rw [feedLoop_succ_none htp] at h
        injection h with h1 h2
        subst h2
        rw [feedLoop_succ_none htp, h1]
      | some f =>
        rw [feedLoop_succ_some htp] at h
        injection h with h1 h2
        have hk : feedLoop k b2 = ((feedLoop k b2).1, []) := by
          rw [Prod.ext_iff]
          exact ⟨rfl, h2⟩
        have h3 := ih (by omega : k ≤ m2) hk
        rw [feedLoop_succ_some htp, h3, h1]

theorem feed_def (s d : Buf) : feed s d = feedLoop (s.length + d.length + 1) (s ++ d) := rfl

/-! ## `scanCrlf` lemmas -/

theorem scanCrlf_zero_add : ∀ (b : Buf) (i : Nat), scanCrlf b i = (scanCrlf b 0).map (· + i) := by
  intro b
  induction b with
  | nil => intro i; rfl
  | cons x t ih =>
    intro i
    cases t with
    | nil => rfl
    | cons y r =>
      by_cases h : x = 13 ∧ y = 10
      · simp [scanCrlf, h]
      · simp only [scanCrlf, if_neg h]
        rw [ih (i + 1), ih 1, Option.map_map]
        cases scanCrlf (y :: r) 0 <;> simp <;> omega

theorem scanCrlf_no13 {b : Buf} (h : ∀ x ∈ b, x ≠ 13) : ∀ i, scanCrlf b i = none := by
  induction b with
  | nil => intro i; rfl
  | cons x t ih =>
    intro i
    cases t with
    | nil => rfl
    | cons y r =>
      have hx : x ≠ 13 := h x (by simp)
      simp only [scanCrlf, if_neg (by tauto : ¬(x = 13 ∧ y = 10))]
      exact ih (fun z hz => h z (by simp [hz])) (i + 1)

theorem scanCrlf_append13 : ∀ {u : Buf}, scanCrlf u 0 = none → ∀ i, scanCrlf (u ++ [13]) i = none := by
  intro u
  induction u with
  | nil => intro _ i; rfl
  | cons x t ih =>
    intro h i
    cases t with
    | nil =>
      simp only [List.cons_append, List.nil_append, scanCrlf]
      rw [if_neg (by omega : ¬(x = 13 ∧ 13 = 10))]
    | cons y r =>
      simp only [scanCrlf] at h
      rcases Decidable.em (x = 13 ∧ y = 10) with hp | hp
      · rw [if_pos hp] at h; exact absurd h (by simp)
      · rw [if_neg hp] at h
        have h0 : scanCrlf (y :: r) 0 = none := by
          have := scanCrlf_zero_add (y :: r) 1
          rw [this] at h
          exact Option.map_eq_none'.mp h
        simp only [List.cons_append, scanCrlf, if_neg hp]
        exact ih h0 (i + 1)

theorem scanCrlf_append_first : ∀ {u : Buf}, scanCrlf u 0 = none → ∀ {v : Buf}, v.head? ≠ some 10 →
    scanCrlf (u ++ v) 0 = (scanCrlf v 0).map (· + u.length) := by
  intro u
  induction u with
  | nil =>
    intro _ v _
    cases h : scanCrlf v 0 <;> simp [h]
  | cons x t ih =>
    intro hu v hv
    cases t with
    | nil =>
      cases v with
      | nil => simp [scanCrlf]
      | cons h vt =>
        have hne : ¬(x = 13 ∧ h = 10) := by
          rintro ⟨_, rfl⟩
          exact hv rfl
        simp only [List.cons_append, List.nil_append, scanCrlf, if_neg hne]
        rw [scanCrlf_zero_add (h :: vt) 1]
        cases scanCrlf (h :: vt) 0 <;> simp
    | cons y r =>
      simp only [scanCrlf] at hu
      rcases Decidable.em (x = 13 ∧ y = 10) with hp | hp
      · rw [if_pos hp] at hu
        exact absurd hu (by simp)
      · rw [if_neg hp] at hu
        have h0 : scanCrlf (y :: r) 0 = none := by
          rw [scanCrlf_zero_add (y :: r) 1] at hu
          exact Option.map_eq_none'.mp hu
        simp only [List.cons_append, scanCrlf, if_neg hp, List.append_eq]
        rw [scanCrlf_zero_add (y :: (r ++ v)) (0 + 1)]
        have h3 := ih h0 hv
        simp only [List.cons_append] at h3
        rw [h3, Option.map_map]
        cases scanCrlf v 0 <;> simp <;> omega

/-! ## Slice and index lemmas -/

theorem clampIdx_natCast (n k : Nat) : clampIdx n (k : Int) = min k n := by
  simp [clampIdx]

theorem pySlice_natCast (b : Buf) (i j : Nat) :
    pySlice b (i : Int) (j : Int) = (b.drop i).take (j - i) := by
  simp only [pySlice, clampIdx_natCast]
  rcases le_or_lt i b.length with h | h
  · rw [min_eq_left h]
    rcases le_or_lt j b.length with hj | hj
    · rw [min_eq_left hj]
    · rw [min_eq_right hj.le]
      rw [List.take_of_length_le (by simp [List.length_drop]),
        List.take_of_length_le (by simp [List.length_drop]; omega)]
  · rw [min_eq_right h.le]
    rw [List.drop_eq_nil_of_le (le_refl _), List.drop_eq_nil_of_le h.le]
    simp

theorem consumeBytes_natCast (b : Buf) (k : Nat) : consumeBytes b (k : Int) = b.drop k := by
  have : ((b.length : Nat) : Int) = (b.length : Int) := rfl
  rw [consumeBytes, ← this, pySlice_natCast]
  exact List.take_of_length_le (by simp [List.length_drop])

theorem pyGet_natCast (b : Buf) (k : Nat) : pyGet b (k : Int) = b.get? k := by
  simp [pyGet]

theorem findCrlfFrom_natCast (b : Buf) (k : Nat) :
    findCrlfFrom b (k : Int) = (scanCrlf (b.drop k) 0).map (· + k) := by
  have h : ¬((k : Int) < 0) := by omega
  simp [findCrlfFrom, h]

/-! ## Decimal numeral lemmas -/

theorem natDecAux_eq : ∀ (f : Nat), ∀ {f2 n : Nat}, n < f → n < f2 → natDecAux f n = natDecAux f2 n := by
  intro f
  induction f with
  | zero => intro f2 n h; omega
  | succ k ih =>
    intro f2 n h h2
    obtain ⟨j, rfl⟩ : ∃ j, f2 = j + 1 := ⟨f2 - 1, by omega⟩
    by_cases hn : n < 10
    · simp [natDecAux, hn]
    · simp only [natDecAux, if_neg hn]
      have hdiv : n / 10 < n := Nat.div_lt_self (by omega) (by omega)
      rw [ih (show n / 10 < k by omega) (show n / 10 < j by omega)]

theorem natDec_unfold (n : Nat) :
    natDec n = if n < 10 then [48 + n] else natDec (n / 10) ++ [48 + n % 10] := by
  show natDecAux (n + 1) n = _
  by_cases hn : n < 10
  · simp [natDecAux, hn]
  · simp only [natDecAux, if_neg hn]
    have hdiv : n / 10 < n := Nat.div_lt_self (by omega) (by omega)
    rw [natDecAux_eq n (show n / 10 < n by omega) (show n / 10 < n / 10 + 1 by omega)]
    rfl

theorem natDec_digits (n : Nat) : ∀ x ∈ natDec n, 48 ≤ x ∧ x ≤ 57 := by
  induction n using Nat.strong_induction_on with
  | _ n ih =>
    rw [natDec_unfold]
    by_cases hn : n < 10
    · rw [if_pos hn]
      intro x hx
      have hx2 : x = 48 + n := by simpa using hx
      omega
    · rw [if_neg hn]
      intro x hx
      rcases List.mem_append.mp hx with hl | hr
      · exact ih (n / 10) (Nat.div_lt_self (by omega) (by omega)) x hl
      · have hx2 : x = 48 + n % 10 := by simpa using hr
        have : n % 10 < 10 := Nat.mod_lt _ (by omega)
        omega

theorem natDec_ne_nil (n : Nat) : natDec n ≠ [] := by
  rw [natDec_unfold]
  by_cases hn : n < 10
  · simp [hn]
  · simp [hn]

theorem digitsCore_cons_digit {c : Nat} (hc : isDigitB c) (rest : Buf) (acc : Nat) :
    digitsCore (c :: rest) acc = digitsCore rest (acc * 10 + (c - 48)) := by
  cases rest <;> simp [digitsCore, hc]

theorem digitsCore_append_digits : ∀ (u : Buf), (∀ x ∈ u, isDigitB x) → ∀ (v : Buf) (acc : Nat),
    digitsCore (u ++ v) acc = digitsCore v (u.foldl (fun a c => a * 10 + (c - 48)) acc) := by
  intro u
  induction u with
  | nil => intro _ v acc; rfl
  | cons c t ih =>
    intro h v acc
    have hc : isDigitB c := h c (by simp)
    rw [List.cons_append, digitsCore_cons_digit hc, List.foldl_cons]
    exact ih (fun x hx => h x (by simp [hx])) v _

theorem digitsVal_digits {u : Buf} (hne : u ≠ []) (hd : ∀ x ∈ u, isDigitB x) :
    digitsVal u = some (u.foldl (fun a c => a * 10 + (c - 48)) 0) := by
  cases u with
  | nil => exact absurd rfl hne
  | cons c t =>
    have hc : isDigitB c := hd c (by simp)
    simp only [digitsVal, if_pos hc, List.foldl_cons]
    have h0 : 0 * 10 + (c - 48) = c - 48 := by omega
    rw [h0]
    have h2 := digitsCore_append_digits t (fun x hx => hd x (by simp [hx])) [] (c - 48)
    simp only [List.append_nil] at h2
    rw [h2]
    rfl

theorem foldl_natDec (n : Nat) : (natDec n).foldl (fun a c => a * 10 + (c - 48)) 0 = n := by
  induction n using Nat.strong_induction_on with
  | _ n ih =>
    rw [natDec_unfold]
    by_cases hn : n < 10
    · simp [hn]
    · rw [if_neg hn, List.foldl_append, ih (n / 10) (Nat.div_lt_self (by omega) (by omega))]
      simp only [List.foldl_cons, List.foldl_nil]
      omega

theorem isDigitB_of_bounds {x : Nat} (h : 48 ≤ x ∧ x ≤ 57) : isDigitB x := by
  simp only [isDigitB, Bool.and_eq_true, decide_eq_true_eq]
  omega

theorem digitsVal_natDec (n : Nat) : digitsVal (natDec n) = some n := by
  rw [digitsVal_digits (natDec_ne_nil n) (fun x hx => isDigitB_of_bounds (natDec_digits n x hx)),
    foldl_natDec]

theorem dropWhile_all_false {p : Nat → Bool} : ∀ {b : Buf}, (∀ x ∈ b, p x = false) →
    b.dropWhile p = b := by
  intro b
  induction b with
  | nil => intro _; rfl
  | cons c t _ =>
    intro h
    rw [List.dropWhile_cons, if_neg (by simp [h c (by simp)])]

theorem pyTrimWs_id {b : Buf} (h : ∀ x ∈ b, isWsB x = false) : pyTrimWs b = b := by
  rw [pyTrimWs, dropWhile_all_false h,
    dropWhile_all_false (fun x hx => h x (List.mem_reverse.mp hx)), List.reverse_reverse]

theorem isWsB_digit {x : Nat} (h : 48 ≤ x ∧ x ≤ 57) : isWsB x = false := by
  simp only [isWsB, Bool.or_eq_false_iff, decide_eq_false_iff_not]
  omega

theorem pyInt_natDec (n : Nat) : pyInt (natDec n) = some (n : Int) := by
  have hd := natDec_digits n
  obtain ⟨c, t, hct⟩ : ∃ c t, natDec n = c :: t := by
    cases hnd : natDec n with
    | nil => exact absurd hnd (natDec_ne_nil n)
    | cons c t => exact ⟨c, t, rfl⟩
  have htrim : pyTrimWs (natDec n) = c :: t := by
    rw [pyTrimWs_id (fun x hx => isWsB_digit (hd x hx)), hct]
  have hc := hd c (by rw [hct]; simp)
  unfold pyInt
  rw [htrim]
  simp only [pyIntCore]
  rw [if_neg (by omega : ¬c = 43), if_neg (by omega : ¬c = 45), ← hct,
    digitsVal_natDec]
  rfl

theorem pyInt_intDec (z : Int) : pyInt (intDec z) = some z := by
  by_cases hz : z < 0
  · have hd := natDec_digits (-z).toNat
    rw [intDec, if_pos hz]
    have htrim : pyTrimWs (45 :: natDec (-z).toNat) = 45 :: natDec (-z).toNat := by
      refine pyTrimWs_id ?_
      intro x hx
      rcases List.mem_cons.mp hx with h45 | hmem
      · subst h45; rfl
      · exact isWsB_digit (hd x hmem)
    unfold pyInt
    rw [htrim]
    simp only [pyIntCore]
    rw [if_pos trivial, digitsVal_natDec]
    have hmz : (((-z).toNat : Nat) : Int) = -z := by omega
    simp [hmz]
  · rw [intDec, if_neg hz]
    rw [pyInt_natDec]
    congr 1
    omega

/-! ## Parsing the canonical wire format -/

theorem get?_append_len (pre : Buf) (c : Nat) (rest : Buf) :
    (pre ++ c :: rest).get? pre.length = some c := by
  rw [List.get?_eq_getElem?, List.getElem?_append_right (le_refl _)]
  simp

theorem pySlice_extract {x : Buf} (y z : Buf) {i j : Int} (hi : i = (x.length : Int))
    (hj : j = ((x.length + y.length : Nat) : Int)) : pySlice (x ++ (y ++ z)) i j = y := by
  subst hi hj
  rw [pySlice_natCast, List.drop_left]
  have h2 : x.length + y.length - x.length = y.length := by omega
  rw [h2, List.take_left]

theorem length_bulkWire (p : Buf) :
    (bulkWire p).length = (natDec p.length).length + p.length + 5 := by
  simp [bulkWire]
  omega

theorem bulkWire_append (p suf : Buf) :
    bulkWire p ++ suf = (36 :: natDec p.length) ++ (13 :: 10 :: (p ++ 13 :: 10 :: suf)) := by
  simp [bulkWire]

theorem scan_36_natDec (m : Nat) : scanCrlf (36 :: natDec m) 0 = none := by
  refine scanCrlf_no13 ?_ 0
  intro x hx
  rcases List.mem_cons.mp hx with h | h
  · omega
  · have := natDec_digits m x h
    omega

theorem parseBulk_wire (pre p suf : Buf) :
    parseBulkString (pre ++ (bulkWire p ++ suf)) (pre.length : Int) =
      (some (decStr p), ((pre.length + (bulkWire p).length : Nat) : Int)) := by
  set D := natDec p.length with hD
  set b := pre ++ (bulkWire p ++ suf) with hb
  have hb2 : b = pre ++ 36 :: (D ++ (13 :: 10 :: (p ++ 13 :: 10 :: suf))) := by
    rw [hb, bulkWire_append]
    simp
  have hblen : b.length = pre.length + (D.length + p.length + 5) + suf.length := by
    rw [hb2]
    simp
    omega
  have hguard : ¬((pre.length : Int) ≥ (b.length : Int)) := by
    rw [hblen]; push_cast; omega
  have hget : pyGet b (pre.length : Int) = some 36 := by
    rw [pyGet_natCast, hb2, get?_append_len]
  have hfind : findCrlfFrom b (pre.length : Int) = some (1 + D.length + pre.length) := by
    have hdrop : b.drop pre.length = (36 :: D) ++ (13 :: 10 :: (p ++ 13 :: 10 :: suf)) := by
      rw [hb, bulkWire_append, List.drop_left]
    have hsc0 : scanCrlf (13 :: 10 :: (p ++ 13 :: 10 :: suf)) 0 = some 0 := by
      simp [scanCrlf]
    have hscan : scanCrlf (b.drop pre.length) 0 = some (1 + D.length) := by
      rw [hdrop, scanCrlf_append_first (scan_36_natDec p.length) (by simp), hsc0]
      simp only [Option.map_some', List.length_cons]
      congr 1
      rw [hD]
      omega
    rw [findCrlfFrom_natCast, hscan]
    simp
  have hslice : pySlice b ((pre.length : Int) + 1) ((1 + D.length + pre.length : Nat) : Int)
      = D := by
    have hb3 : b = (pre ++ [36]) ++ (D ++ (13 :: 10 :: (p ++ 13 :: 10 :: suf))) := by
      rw [hb2]; simp
    rw [hb3]
    refine pySlice_extract _ _ ?_ ?_
    · simp only [List.length_append, List.length_cons, List.length_nil]
      push_cast
      omega
    · simp only [List.length_append, List.length_cons, List.length_nil]
      push_cast
      omega
  have hint : pyInt (pySlice b ((pre.length : Int) + 1) ((1 + D.length + pre.length : Nat) : Int))
      = some (p.length : Int) := by
    rw [hslice, hD, pyInt_natDec]
  have hcontent : pySlice b (((1 + D.length + pre.length : Nat) : Int) + 2)
      ((((1 + D.length + pre.length : Nat) : Int) + 2) + (p.length : Int)) = p := by
    have hb4 : b = (pre ++ 36 :: D ++ [13, 10]) ++ (p ++ (13 :: 10 :: suf)) := by
      rw [hb2]; simp
    rw [hb4]
    refine pySlice_extract _ _ ?_ ?_
    · simp only [List.length_append, List.length_cons, List.length_nil]
      push_cast
      omega
    · simp only [List.length_append, List.length_cons, List.length_nil]
      push_cast
      omega
  have hverify : pySlice b ((((1 + D.length + pre.length : Nat) : Int) + 2) + (p.length : Int))
      (((((1 + D.length + pre.length : Nat) : Int) + 2) + (p.length : Int)) + 2) = [13, 10] := by
    have hb5 : b = (pre ++ 36 :: D ++ [13, 10] ++ p) ++ ([13, 10] ++ suf) := by
      rw [hb2]; simp
    rw [hb5]
    refine pySlice_extract _ _ ?_ ?_
    · simp only [List.length_append, List.length_cons, List.length_nil]
      push_cast
      omega
    · simp only [List.length_append, List.length_cons, List.length_nil]
      push_cast
      omega
  have hne1 : ¬(p.length : Int) = -1 := by omega
  have h36 : ¬(36 : Nat) ≠ 36 := by omega
  have hroom : ¬((((1 + D.length + pre.length : Nat) : Int) + 2 + (p.length : Int)) + 2
      > (b.length : Int)) := by
    rw [hblen]; push_cast; omega
  simp only [parseBulkString, hguard, hget, h36, hfind, hint, hne1, hroom, hcontent, hverify,
    if_false, if_true, ite_true, ite_false]
  simp only [Prod.mk.injEq]
  refine ⟨rfl, ?_⟩
  push_cast [length_bulkWire]
  rw [hD]
  omega

theorem parseElems_wire : ∀ (ps : List Buf) (pre suf : Buf),
    parseElems (pre ++ ((ps.map bulkWire).flatten ++ suf)) ps.length (pre.length : Int) =
      some (ps.map decStr, ((pre.length + ((ps.map bulkWire).flatten).length : Nat) : Int)) := by
  intro ps
  induction ps with
  | nil =>
    intro pre suf
    simp [parseElems]
  | cons p ps ih =>
    intro pre suf
    rw [show pre ++ (((p :: ps).map bulkWire).flatten ++ suf)
        = pre ++ (bulkWire p ++ ((ps.map bulkWire).flatten ++ suf)) from by simp]
    have hstep := parseBulk_wire pre p ((ps.map bulkWire).flatten ++ suf)
    have hrec := ih (pre ++ bulkWire p) suf
    rw [show (pre ++ bulkWire p) ++ ((ps.map bulkWire).flatten ++ suf)
        = pre ++ (bulkWire p ++ ((ps.map bulkWire).flatten ++ suf)) from by simp] at hrec
    rw [show (((pre ++ bulkWire p).length : Nat) : Int)
        = ((pre.length + (bulkWire p).length : Nat) : Int) from by simp] at hrec
    simp only [List.length_cons, parseElems, hstep, hrec]
    simp only [Option.some.injEq, Prod.mk.injEq, List.map_cons, List.flatten_cons,
      List.length_append, true_and, and_true]
    push_cast
    omega

theorem scan_cons_natDec {c : Nat} (hc : c ≠ 13) (m : Nat) : scanCrlf (c :: natDec m) 0 = none := by
  refine scanCrlf_no13 ?_ 0
  intro x hx
  rcases List.mem_cons.mp hx with h | h
  · omega
  · have := natDec_digits m x h
    omega

theorem findCrlfFrom_zero (b : Buf) : findCrlfFrom b 0 = scanCrlf b 0 := by
  simp only [findCrlfFrom]
  rw [if_neg (by omega : ¬(0 : Int) < 0)]
  simp only [Int.toNat_zero, List.drop_zero]
  cases scanCrlf b 0 <;> simp

theorem respWire_decomp (ps : List Buf) (d : Buf) :
    respWire ps ++ d
      = (42 :: natDec ps.length) ++ (13 :: 10 :: ((ps.map bulkWire).flatten ++ d)) := by
  simp [respWire]

theorem parseRespArray_wire (ps : List Buf) (d : Buf) :
    parseRespArray (respWire ps ++ d) = (some (ps.map decStr), d) := by
  set D := natDec ps.length with hD
  set b := respWire ps ++ d with hb
  have hb2 : b = (42 :: D) ++ (13 :: 10 :: ((ps.map bulkWire).flatten ++ d)) := by
    rw [hb, respWire_decomp, hD]
  have hsc0 : scanCrlf (13 :: 10 :: ((ps.map bulkWire).flatten ++ d)) 0 = some 0 := by
    simp [scanCrlf]
  have hscan : scanCrlf b 0 = some (1 + D.length) := by
    rw [hb2, scanCrlf_append_first (hD ▸ scan_cons_natDec (by omega) ps.length) (by simp), hsc0]
    simp only [Option.map_some', List.length_cons]
    congr 1
    omega
  have hfind : findCrlfFrom b 0 = some (1 + D.length) := by
    rw [findCrlfFrom_zero, hscan]
  have hslice : pySlice b 1 ((1 + D.length : Nat) : Int) = D := by
    have hb3 : b = [42] ++ (D ++ (13 :: 10 :: ((ps.map bulkWire).flatten ++ d))) := by
      rw [hb2]; simp
    rw [hb3]
    refine pySlice_extract _ _ ?_ ?_
    · simp
    · simp
  have hint : pyInt (pySlice b 1 ((1 + D.length : Nat) : Int)) = some (ps.length : Int) := by
    rw [hslice, hD, pyInt_natDec]
  have helems : parseElems b ps.length (((1 + D.length : Nat) : Int) + 2)
      = some (ps.map decStr,
          (((42 :: D ++ [13, 10]).length + ((ps.map bulkWire).flatten).length : Nat) : Int)) := by
    have hb4 : b = (42 :: D ++ [13, 10]) ++ (((ps.map bulkWire).flatten) ++ d) := by
      rw [hb2]; simp
    have hpos : (((1 + D.length : Nat) : Int) + 2) = (((42 :: D ++ [13, 10]).length : Nat) : Int) := by
      simp only [List.length_cons, List.length_append, List.length_nil]
      push_cast
      omega
    rw [hpos, hb4, parseElems_wire]
  have hconsume : consumeBytes b
      ((((42 :: D ++ [13, 10]).length + ((ps.map bulkWire).flatten).length : Nat) : Int))
      = d := by
    rw [consumeBytes_natCast]
    have hb5 : b = ((42 :: D ++ [13, 10]) ++ (ps.map bulkWire).flatten) ++ d := by
      rw [hb2]; simp
    have hlen : (42 :: D ++ [13, 10]).length + ((ps.map bulkWire).flatten).length
        = ((42 :: D ++ [13, 10]) ++ (ps.map bulkWire).flatten).length := by
      simp only [List.length_append]
    rw [hlen, hb5, List.drop_left]
  have htoNat : (ps.length : Int).toNat = ps.length := Int.toNat_natCast ps.length
  simp only [parseRespArray, hfind, hint, htoNat, helems, hconsume]

theorem tryParse_respWire (ps : List Buf) (d : Buf) :
    tryParse (respWire ps ++ d) = (some (ps.map decStr), d) := by
  have h := parseRespArray_wire ps d
  rcases hcons : respWire ps ++ d with _ | ⟨c, rest⟩
  · exfalso
    have hlen : (respWire ps ++ d).length ≠ 0 := by simp [respWire]
    rw [hcons] at hlen
    simp at hlen
  · have hc : c = 42 := by
      have hh : (respWire ps ++ d).head? = some 42 := by simp [respWire]
      rw [hcons] at hh
      simpa using hh
    subst hc
    rw [hcons] at h
    simp only [tryParse, if_pos rfl]
    exact h

theorem tryParse_textCrlf (line d : Buf) (hhead : line.head? ≠ some 42) (hcr : 13 ∉ line)
    (hne : pyStrip (decodeUtf8 line) ≠ "") :
    tryParse ((line ++ [13, 10]) ++ d)
      = (some (pySplit (pyStrip (decodeUtf8 line))), d) := by
  set b := (line ++ [13, 10]) ++ d with hbdef
  have hb : b = line ++ (13 :: 10 :: d) := by rw [hbdef]; simp
  have hlnil : line ≠ [] := by
    intro h
    subst h
    exact hne rfl
  have hscan : scanCrlf b 0 = some line.length := by
    have hno13 : ∀ x ∈ line, x ≠ 13 := by
      intro x hx h13
      subst h13
      exact hcr hx
    rw [hb, scanCrlf_append_first (scanCrlf_no13 hno13 0) (by simp)]
    simp [scanCrlf]
  have hfind : findCrlfFrom b 0 = some line.length := by
    rw [findCrlfFrom_zero, hscan]
  have hslice : pySlice b 0 ((line.length : Nat) : Int) = line := by
    have hb3 : b = [] ++ (line ++ (13 :: 10 :: d)) := by rw [hb]; rfl
    rw [hb3]
    refine pySlice_extract _ _ ?_ ?_
    · simp
    · simp
  have hconsume : consumeBytes b ((line.length : Int) + 2) = d := by
    have hcast : ((line.length : Int) + 2) = ((line.length + 2 : Nat) : Int) := by push_cast; ring
    have hlen2 : (line ++ [13, 10]).length = line.length + 2 := by simp
    rw [hcast, consumeBytes_natCast, hbdef, ← hlen2, List.drop_left]
  obtain ⟨c, rest, hline⟩ : ∃ c rest, line = c :: rest := by
    cases hl : line with
    | nil => exact absurd hl hlnil
    | cons c rest => exact ⟨c, rest, rfl⟩
  have hc42 : ¬c = 42 := by
    rw [hline] at hhead
    simpa using hhead
  have hbcons : b = c :: (rest ++ (13 :: 10 :: d)) := by
    rw [hb, hline]
    simp
  rw [hbcons]
  simp only [tryParse, if_neg hc42]
  rw [← hbcons]
  simp only [parseTextProtocol, hfind, hslice, hconsume]
  rw [if_pos hne]

theorem tryParse_complete {w : Buf} {f : Frame} (h : CompleteFrame w f) (d : Buf) :
    tryParse (w ++ d) = (some f, d) := by
  rcases h with ⟨ps, rfl, rfl⟩ | ⟨line, rfl, hhead, hcr, hne, rfl⟩
  · exact tryParse_respWire ps d
  · exact tryParse_textCrlf line d hhead hcr hne

theorem feed_nil_eq (x : Buf) : feed [] x = feedLoop (x.length + 1) x := by
  simp [feed]

theorem CompleteFrame.pos_length {w : Buf} {f : Frame} (h : CompleteFrame w f) :
    1 ≤ w.length := by
  rcases h with ⟨ps, rfl, _⟩ | ⟨line, rfl, _, _, _, _⟩
  · simp [respWire]
  · simp

/-- Feeding one complete frame followed by anything that alone yields frames
`fs` ending with an empty buffer yields the frame and then `fs`. -/
theorem feed_append_complete {w1 : Buf} {f1 : Frame} {w2 : Buf} {fs : List Frame}
    (h1 : CompleteFrame w1 f1) (h2 : feed [] w2 = (fs, [])) :
    feed [] (w1 ++ w2) = (f1 :: fs, []) := by
  rw [feed_nil_eq]
  have hstep := tryParse_complete h1 w2
  have hfuel : (w1 ++ w2).length + 1 = (w1 ++ w2).length + 1 := rfl
  rw [feedLoop_succ_some hstep ((w1 ++ w2).length)]
  have h2x : feedLoop (w2.length + 1) w2 = (fs, []) := by
    rw [feed_nil_eq] at h2
    exact h2
  have hw1 := h1.pos_length
  have hext := feedLoop_extend (w2.length + 1)
    (show w2.length + 1 ≤ (w1 ++ w2).length by simp; omega) h2x
  rw [hext]

/-! ## Strict prefixes of the wire format never consume -/

theorem prefix_append_split {q a b : List Nat} (h : q <+: a ++ b) (hlen : a.length ≤ q.length) :
    ∃ q2, q = a ++ q2 ∧ q2 <+: b := by
  have hq := List.prefix_iff_eq_take.mp h
  have hsum : q.length = a.length + (q.length - a.length) := by omega
  refine ⟨b.take (q.length - a.length), ?_, List.take_prefix _ _⟩
  conv_lhs => rw [hq, hsum, List.take_append]

theorem parseBulkPrefixNone (p pre q' : Buf) (hpre : q' <+: bulkWire p) (hne : q' ≠ bulkWire p) :
    parseBulkString (pre ++ q') (pre.length : Int) = (none, (pre.length : Int)) := by
  set D := natDec p.length with hD
  have hbw : bulkWire p = (36 :: D) ++ (13 :: 10 :: (p ++ [13, 10])) := by
    rw [bulkWire, ← hD]
    simp
  have hq : q' = (bulkWire p).take q'.length := List.prefix_iff_eq_take.mp hpre
  have hklt : q'.length < (bulkWire p).length := by
    rcases lt_or_eq_of_le hpre.length_le with h | h
    · exact h
    · exact absurd (by rw [hq, h, List.take_length]) hne
  have hbwlen : (bulkWire p).length = 5 + D.length + p.length := by
    rw [length_bulkWire, ← hD]
    omega
  rcases Nat.lt_or_ge q'.length 1 with h0 | h1
  · -- empty prefix: the `start_pos >= len(buffer)` guard fires
    have hq0 : q' = [] := List.length_eq_zero.mp (by omega)
    subst hq0
    unfold parseBulkString
    rw [if_pos (by simp)]
  rcases Nat.lt_or_ge q'.length (2 + D.length) with h2 | h3
  · -- inside `$<digits>`: no CRLF after the header start yet
    have hq' : q' = 36 :: D.take (q'.length - 1) := by
      rw [hq, hbw, List.take_append_of_le_length (by simp; omega)]
      obtain ⟨k2, hk2⟩ : ∃ k2, q'.length = k2 + 1 := ⟨q'.length - 1, by omega⟩
      rw [hk2, List.take_succ_cons]
      simp
    have hguard : ¬((pre.length : Int) ≥ ((pre ++ q').length : Int)) := by
      simp only [List.length_append]
      push_cast
      omega
    have hget : pyGet (pre ++ q') (pre.length : Int) = some 36 := by
      rw [pyGet_natCast, hq', get?_append_len]
    have hfind : findCrlfFrom (pre ++ q') (pre.length : Int) = none := by
      rw [findCrlfFrom_natCast, List.drop_left, hq',
        scanCrlf_no13 (fun x hx => ?_) 0]
      · rfl
      · rcases List.mem_cons.mp hx with h36 | hmem
        · omega
        · have := natDec_digits p.length x (hD ▸ List.mem_of_mem_take hmem)
          omega
    have h36 : ¬(36 : Nat) ≠ 36 := by omega
    simp only [parseBulkString, hguard, hget, h36, hfind, if_false, ite_false]
  rcases Nat.lt_or_ge q'.length (3 + D.length) with h4 | h5
  · -- `$<digits>\r` : still no full CRLF
    have hq' : q' = (36 :: D) ++ [13] := by
      have hlen36 : q'.length = (36 :: D).length + 1 := by simp; omega
      rw [hq, hbw, hlen36, List.take_append]
      rfl
    have hguard : ¬((pre.length : Int) ≥ ((pre ++ q').length : Int)) := by
      simp only [List.length_append]
      push_cast
      omega
    have hget : pyGet (pre ++ q') (pre.length : Int) = some 36 := by
      rw [pyGet_natCast, hq']
      rw [show (36 :: D) ++ ([13] : Buf) = 36 :: (D ++ [13]) from by simp]
      rw [get?_append_len]
    have hfind : findCrlfFrom (pre ++ q') (pre.length : Int) = none := by
      rw [findCrlfFrom_natCast, List.drop_left, hq',
        scanCrlf_append13 (hD ▸ scan_cons_natDec (by omega) p.length) 0]
      rfl
    have h36 : ¬(36 : Nat) ≠ 36 := by omega
    simp only [parseBulkString, hguard, hget, h36, hfind, if_false, ite_false]
  · -- header complete, but payload or trailing CRLF missing
    set i := q'.length - (3 + D.length) with hi
    have hilt : i < p.length + 2 := by
      rw [hi]
      omega
    have hq' : q' = (36 :: D) ++ (13 :: 10 :: (p ++ [13, 10]).take i) := by
      have hlen36 : q'.length = (36 :: D).length + (2 + i) := by simp; omega
      rw [hq, hbw, hlen36, List.take_append,
        show 2 + i = (i + 1) + 1 from by omega, List.take_succ_cons, List.take_succ_cons]
    have hguard : ¬((pre.length : Int) ≥ ((pre ++ q').length : Int)) := by
      simp only [List.length_append]
      push_cast
      omega
    have hget : pyGet (pre ++ q') (pre.length : Int) = some 36 := by
      rw [pyGet_natCast, hq']
      simp only [List.cons_append]
      rw [get?_append_len]
    have hfind : findCrlfFrom (pre ++ q') (pre.length : Int)
        = some (1 + D.length + pre.length) := by
      rw [findCrlfFrom_natCast, List.drop_left, hq',
        scanCrlf_append_first (hD ▸ scan_cons_natDec (by omega) p.length) (by simp)]
      have hsc0 : scanCrlf (13 :: 10 :: ((p ++ [13, 10]).take i)) 0 = some 0 := by
        simp [scanCrlf]
      rw [hsc0]
      simp only [Option.map_some', List.length_cons]
      congr 1
      omega
    have hslice : pySlice (pre ++ q') ((pre.length : Int) + 1)
        ((1 + D.length + pre.length : Nat) : Int) = D := by
      have hb3 : pre ++ q' = (pre ++ [36]) ++ (D ++ (13 :: 10 :: (p ++ [13, 10]).take i)) := by
        rw [hq']
        simp
      rw [hb3]
      refine pySlice_extract _ _ ?_ ?_
      · simp
      · simp
        omega
    have hint : pyInt (pySlice (pre ++ q') ((pre.length : Int) + 1)
        ((1 + D.length + pre.length : Nat) : Int)) = some (p.length : Int) := by
      rw [hslice, hD, pyInt_natDec]
    have hq'len : q'.length = 3 + D.length + i := by omega
    have hne1 : ¬(p.length : Int) = -1 := by omega
    have h36 : ¬(36 : Nat) ≠ 36 := by omega
    have hroom : (((1 + D.length + pre.length : Nat) : Int) + 2 + (p.length : Int)) + 2
        > ((pre ++ q').length : Int) := by
      simp only [List.length_append]
      rw [hq'len]
      push_cast
      omega
    simp only [parseBulkString, hguard, hget, h36, hfind, hint, hne1, hroom, if_false,
      ite_false, if_true, ite_true]

theorem parseElemsPrefixNone : ∀ (ps : List Buf) (pre q' : Buf),
    q' <+: (ps.map bulkWire).flatten → q' ≠ (ps.map bulkWire).flatten →
    parseElems (pre ++ q') ps.length (pre.length : Int) = none := by
  intro ps
  induction ps with
  | nil =>
    intro pre q' hp hne
    have : q' = [] := by simpa using hp
    exact absurd this (by simpa using hne)
  | cons p ps ih =>
    intro pre q' hp hne
    rw [List.map_cons, List.flatten_cons] at hp hne
    by_cases hsplit : (bulkWire p).length ≤ q'.length
    · obtain ⟨q2, rfl, hq2⟩ := prefix_append_split hp hsplit
      have hq2ne : q2 ≠ (ps.map bulkWire).flatten := by
        intro h
        exact hne (by rw [h])
      have hstep := parseBulk_wire pre p q2
      have hrec := ih (pre ++ bulkWire p) q2 hq2 hq2ne
      rw [show (pre ++ bulkWire p) ++ q2 = pre ++ (bulkWire p ++ q2) from by simp] at hrec
      rw [show (((pre ++ bulkWire p).length : Nat) : Int)
          = ((pre.length + (bulkWire p).length : Nat) : Int) from by simp] at hrec
      rw [show pre ++ (bulkWire p ++ q2) = pre ++ (bulkWire p ++ q2) from rfl]
      simp only [List.length_cons, parseElems, hstep, hrec]
    · push_neg at hsplit
      have hpp : q' <+: bulkWire p := by
        have ht := List.prefix_iff_eq_take.mp hp
        rw [List.take_append_of_le_length (by omega)] at ht
        rw [ht]
        exact List.take_prefix _ _
      have hppne : q' ≠ bulkWire p := by
        intro h
        rw [h] at hsplit
        omega
      have hbulk := parseBulkPrefixNone p pre q' hpp hppne
      simp only [List.length_cons, parseElems, hbulk]

theorem tryParseRespPrefixNone (ps : List Buf) (q : Buf) (hp : q <+: respWire ps)
    (hne : q ≠ respWire ps) : tryParse q = (none, q) := by
  set D := natDec ps.length with hD
  have hw : respWire ps = (42 :: D) ++ (13 :: 10 :: (ps.map bulkWire).flatten) := by
    rw [respWire, ← hD]
    simp
  have hq : q = (respWire ps).take q.length := List.prefix_iff_eq_take.mp hp
  have hklt : q.length < (respWire ps).length := by
    rcases lt_or_eq_of_le hp.length_le with h | h
    · exact h
    · exact absurd (by rw [hq, h, List.take_length]) hne
  have hwlen : (respWire ps).length = 3 + D.length + ((ps.map bulkWire).flatten).length := by
    rw [hw]
    simp
    omega
  rcases Nat.lt_or_ge q.length 1 with h0 | h1
  · have hq0 : q = [] := List.length_eq_zero.mp (by omega)
    rw [hq0]
    rfl
  rcases Nat.lt_or_ge q.length (2 + D.length) with h2 | h3
  · -- inside `*<digits>`: no CRLF yet
    have hq' : q = 42 :: D.take (q.length - 1) := by
      conv_lhs => rw [hq]
      rw [hw, List.take_append_of_le_length (by simp; omega)]
      obtain ⟨k2, hk2⟩ : ∃ k2, q.length = k2 + 1 := ⟨q.length - 1, by omega⟩
      rw [hk2, List.take_succ_cons]
      simp
    have hfind : findCrlfFrom q 0 = none := by
      rw [findCrlfFrom_zero, hq', scanCrlf_no13 (fun x hx => ?_) 0]
      rcases List.mem_cons.mp hx with h42 | hmem
      · omega
      · have := natDec_digits ps.length x (hD ▸ List.mem_of_mem_take hmem)
        omega
    rw [hq']
    simp only [tryParse, if_pos rfl]
    rw [← hq']
    simp only [parseRespArray, hfind]
    exact if_pos trivial
  rcases Nat.lt_or_ge q.length (3 + D.length) with h4 | h5
  · -- `*<digits>\r`
    have hq' : q = (42 :: D) ++ [13] := by
      have hlen42 : q.length = (42 :: D).length + 1 := by simp; omega
      conv_lhs => rw [hq]
      rw [hw, hlen42, List.take_append]
      rfl
    have hfind : findCrlfFrom q 0 = none := by
      rw [findCrlfFrom_zero, hq',
        scanCrlf_append13 (hD ▸ scan_cons_natDec (by omega) ps.length) 0]
    have hqcons : q = 42 :: (D ++ [13]) := by
      rw [hq']
      simp
    rw [hqcons]
    simp only [tryParse, if_pos rfl]
    rw [← hqcons]
    simp only [parseRespArray, hfind]
    exact if_pos trivial
  · -- header complete: some element is incomplete
    set i := q.length - (3 + D.length) with hi
    have hilt : i < ((ps.map bulkWire).flatten).length := by
      rw [hi]
      omega
    have hq' : q = (42 :: D) ++ (13 :: 10 :: ((ps.map bulkWire).flatten).take i) := by
      have hlen42 : q.length = (42 :: D).length + (2 + i) := by simp; omega
      conv_lhs => rw [hq]
      rw [hw, hlen42, List.take_append,
        show 2 + i = (i + 1) + 1 from by omega, List.take_succ_cons, List.take_succ_cons]
    have hfind : findCrlfFrom q 0 = some (1 + D.length) := by
      rw [findCrlfFrom_zero, hq',
        scanCrlf_append_first (hD ▸ scan_cons_natDec (by omega) ps.length) (by simp)]
      have hsc0 : scanCrlf (13 :: 10 :: (((ps.map bulkWire).flatten).take i)) 0 = some 0 := by
        simp [scanCrlf]
      rw [hsc0]
      simp
      omega
    have hslice : pySlice q 1 ((1 + D.length : Nat) : Int) = D := by
      have hb3 : q = [42] ++ (D ++ (13 :: 10 :: ((ps.map bulkWire).flatten).take i)) := by
        rw [hq']
        simp
      rw [hb3]
      refine pySlice_extract _ _ ?_ ?_
      · simp
      · simp
    have hint : pyInt (pySlice q 1 ((1 + D.length : Nat) : Int)) = some (ps.length : Int) := by
      rw [hslice, hD, pyInt_natDec]
    have helems : parseElems q ps.length (((1 + D.length : Nat) : Int) + 2) = none := by
      have htake := List.take_prefix i ((ps.map bulkWire).flatten)
      have htne : ((ps.map bulkWire).flatten).take i ≠ (ps.map bulkWire).flatten := by
        intro h
        have := congrArg List.length h
        rw [List.length_take] at this
        omega
      have hpos : (((1 + D.length : Nat) : Int) + 2)
          = (((42 :: D ++ [13, 10]).length : Nat) : Int) := by
        simp
        omega
      have hbuf : q = (42 :: D ++ [13, 10]) ++ ((ps.map bulkWire).flatten).take i := by
        rw [hq']
        simp
      rw [hpos, hbuf]
      exact parseElemsPrefixNone ps (42 :: D ++ [13, 10]) _ htake htne
    have hqcons : q = 42 :: (D ++ (13 :: 10 :: ((ps.map bulkWire).flatten).take i)) := by
      rw [hq']
      simp
    have htoNat : (ps.length : Int).toNat = ps.length := Int.toNat_natCast ps.length
    rw [hqcons]
    simp only [tryParse, if_pos rfl]
    rw [← hqcons]
    simp only [parseRespArray, hfind, hint, htoNat, helems]
    exact if_pos trivial

/-! ## Text protocol and malformed-header lemmas -/

theorem scanCrlf_no10 {b : Buf} (h : ∀ x ∈ b, x ≠ 10) : ∀ i, scanCrlf b i = none := by
  induction b with
  | nil => intro i; rfl
  | cons x t ih =>
    intro i
    cases t with
    | nil => rfl
    | cons y r =>
      have hy : y ≠ 10 := h y (by simp)
      simp only [scanCrlf, if_neg (by tauto : ¬(x = 13 ∧ y = 10))]
      exact ih (fun z hz => h z (by simp [hz])) (i + 1)

theorem findByte_eq_none {b : Buf} {t : Nat} (h : t ∉ b) : findByte b t = none := by
  induction b with
  | nil => rfl
  | cons x r ih =>
    have hx : ¬x = t := by
      intro hxt
      exact h (by simp [hxt])
    simp only [findByte, if_neg hx, ih (fun hm => h (by simp [hm]))]
    rfl

theorem parseTextProtocol_noNewline {b : Buf} (h10 : 10 ∉ b) :
    parseTextProtocol b = (none, b) := by
  have hscan : scanCrlf b 0 = none :=
    scanCrlf_no10 (fun x hx hx10 => h10 (hx10 ▸ hx)) 0
  have hfb : findByte b 10 = none := findByte_eq_none h10
  simp only [parseTextProtocol, findCrlfFrom_zero, hscan, hfb]

theorem tryParse_text_noNewline {b : Buf} (hhead : b.head? ≠ some 42) (h10 : 10 ∉ b) :
    tryParse b = (none, b) := by
  cases b with
  | nil => rfl
  | cons c rest =>
    have hc : ¬c = 42 := by simpa using hhead
    simp only [tryParse, if_neg hc]
    exact parseTextProtocol_noNewline h10

theorem pySlice_zero_nat (b : Buf) (e : Nat) : pySlice b 0 (e : Int) = b.take e := by
  have h0 : (0 : Int) = ((0 : Nat) : Int) := rfl
  rw [h0, pySlice_natCast]
  simp

theorem consumeBytes_cast_add (b : Buf) (e k : Nat) :
    consumeBytes b ((e : Int) + (k : Int)) = b.drop (e + k) := by
  have hcast : ((e : Int) + (k : Int)) = ((e + k : Nat) : Int) := by push_cast; ring
  rw [hcast, consumeBytes_natCast]

theorem parseTextProtocol_crlf {b : Buf} {e : Nat} (hfind : findCrlfFrom b 0 = some e) :
    parseTextProtocol b
      = (if pyStrip (decodeUtf8 (b.take e)) ≠ "" then
          some (pySplit (pyStrip (decodeUtf8 (b.take e)))) else none, b.drop (e + 2)) := by
  have hslice : pySlice b 0 (e : Int) = b.take e := pySlice_zero_nat b e
  have hcons : consumeBytes b ((e : Int) + 2) = b.drop (e + 2) := by
    have := consumeBytes_cast_add b e 2
    simpa using this
  simp only [parseTextProtocol, hfind, hslice, hcons]
  by_cases hl : pyStrip (decodeUtf8 (b.take e)) ≠ "" <;> simp [hl]

theorem parseTextProtocol_lf {b : Buf} {e : Nat} (hno : findCrlfFrom b 0 = none)
    (hfb : findByte b 10 = some e) :
    parseTextProtocol b
      = (if pyStrip (decodeUtf8 (b.take e)) ≠ "" then
          some (pySplit (pyStrip (decodeUtf8 (b.take e)))) else none, b.drop (e + 1)) := by
  have hslice : pySlice b 0 (e : Int) = b.take e := pySlice_zero_nat b e
  have hcons : consumeBytes b ((e : Int) + 1) = b.drop (e + 1) := by
    have := consumeBytes_cast_add b e 1
    simpa using this
  simp only [parseTextProtocol, hno, hfb, hslice, hcons]
  by_cases hl : pyStrip (decodeUtf8 (b.take e)) ≠ "" <;> simp [hl]

theorem malformedHeader_tryParse (x rest : Buf) (hnocrlf : scanCrlf (42 :: x) 0 = none)
    (hbad : pyInt x = none) :
    tryParse ((42 :: x) ++ (13 :: 10 :: rest)) = (none, rest) := by
  set b := (42 :: x) ++ (13 :: 10 :: rest) with hbdef
  have hfind : findCrlfFrom b 0 = some (x.length + 1) := by
    rw [hbdef, findCrlfFrom_zero, scanCrlf_append_first hnocrlf (by simp)]
    simp [scanCrlf]
  have hslice : pySlice b 1 ((x.length + 1 : Nat) : Int) = x := by
    have hb2 : b = [42] ++ (x ++ (13 :: 10 :: rest)) := by rw [hbdef]; simp
    rw [hb2]
    refine pySlice_extract _ _ ?_ ?_
    · simp
    · simp
      omega
  have hpy : pyInt (pySlice b 1 ((x.length + 1 : Nat) : Int)) = none := by
    rw [hslice, hbad]
  have hconsume : consumeBytes b (((x.length + 1 : Nat) : Int) + 2) = rest := by
    have hc : consumeBytes b (((x.length + 1 : Nat) : Int) + 2) = b.drop (x.length + 1 + 2) := by
      have h2 := consumeBytes_cast_add b (x.length + 1) 2
      simpa using h2
    rw [hc, hbdef, show (42 :: x) ++ (13 :: 10 :: rest) = ((42 :: x) ++ [13, 10]) ++ rest
      from by simp, show x.length + 1 + 2 = ((42 :: x) ++ [13, 10]).length from by simp,
      List.drop_left]
  have hbcons : b = 42 :: (x ++ (13 :: 10 :: rest)) := by rw [hbdef]; simp
  rw [hbcons]
  simp only [tryParse, if_pos rfl]
  rw [← hbcons]
  simp only [parseRespArray, hfind, hpy, hconsume]
  exact if_pos trivial

theorem malformedHeader_feed (x rest : Buf) (hnocrlf : scanCrlf (42 :: x) 0 = none)
    (hbad : pyInt x = none) :
    feed [] ((42 :: x) ++ (13 :: 10 :: rest)) = ([], rest) := by
  rw [feed_def]
  exact feedLoop_succ_none (malformedHeader_tryParse x rest hnocrlf hbad) _

/-! ## Chunked feeding of the PING wire frame -/

theorem pingWire_take_tryParse :
    ∀ n, n < 14 → tryParse (pingWire.take n) = (none, pingWire.take n) := by decide

theorem pingWire_length : pingWire.length = 14 := rfl

theorem pingWireFeedPrefixNone {s d : Buf} (h : (s ++ d) <+: pingWire) (hne : s ++ d ≠ pingWire) :
    feed s d = ([], s ++ d) := by
  have h14 := h.length_le
  rw [pingWire_length] at h14
  have hlen : (s ++ d).length < 14 := by
    rcases Nat.lt_or_ge (s ++ d).length 14 with hl | hg
    · exact hl
    · exfalso
      apply hne
      have hq := List.prefix_iff_eq_take.mp h
      have heq : (s ++ d).length = 14 := by omega
      rw [hq, heq, ← pingWire_length, List.take_length]
  have hq := List.prefix_iff_eq_take.mp h
  have htp := pingWire_take_tryParse (s ++ d).length hlen
  rw [← hq] at htp
  rw [feed_def]
  exact feedLoop_succ_none htp _

theorem pingWire_feed_final {s d : Buf} (hjoin : s ++ d = pingWire) :
    feed s d = ([["PING"]], []) := by
  have hfuel : s.length + d.length + 1 = 15 := by
    have hl := congrArg List.length hjoin
    simp only [List.length_append, pingWire_length] at hl
    omega
  rw [feed_def, hjoin, hfuel]
  decide

theorem feedChunks_pingWire : ∀ (chunks : List Buf) (s : Buf),
    chunks ≠ [] → (∀ c ∈ chunks, c ≠ []) → s ++ chunks.flatten = pingWire →
    feedChunks s chunks
      = (List.replicate (chunks.length - 1) [] ++ [[["PING"]]], []) := by
  intro chunks
  induction chunks with
  | nil =>
    intro s hcne _ _
    exact absurd rfl hcne
  | cons c cs ih =>
    intro s _ hall hjoin
    rw [List.flatten_cons] at hjoin
    cases cs with
    | nil =>
      simp only [List.flatten_nil, List.append_nil] at hjoin
      have hfeed : feed s c = ([["PING"]], []) := pingWire_feed_final hjoin
      simp [feedChunks, hfeed]
    | cons c2 cs2 =>
      have hjoin2 : (s ++ c) ++ (c2 :: cs2).flatten = pingWire := by
        rw [List.append_assoc]
        exact hjoin
      have hflne : (c2 :: cs2).flatten ≠ [] := by
        have hc2 : c2 ≠ [] := hall c2 (by simp)
        simp only [List.flatten_cons]
        intro h
        rcases List.append_eq_nil.mp h with ⟨h1, _⟩
        exact hc2 h1
      have hpre : (s ++ c) <+: pingWire := hjoin2 ▸ List.prefix_append _ _
      have hne : s ++ c ≠ pingWire := by
        intro h
        have h2 : (s ++ c) ++ (c2 :: cs2).flatten = (s ++ c) ++ [] := by
          rw [List.append_nil]
          exact hjoin2.trans h.symm
        exact hflne (List.append_cancel_left h2)
      have hfeed : feed s c = ([], s ++ c) := pingWireFeedPrefixNone hpre hne
      have hstep1 : feedChunks s (c :: c2 :: cs2)
          = ((feed s c).1 :: (feedChunks (feed s c).2 (c2 :: cs2)).1,
             (feedChunks (feed s c).2 (c2 :: cs2)).2) := rfl
      have hrec := ih (s ++ c) (by simp) (fun x hx => hall x (by simp [hx])) hjoin2
      rw [hstep1, hfeed]
      simp only
      rw [hrec]
      simp [List.replicate_succ]

/-! ## Non-positive array counts -/

theorem intDec_no13 (z : Int) : ∀ x ∈ intDec z, x ≠ 13 := by
  intro x hx
  rw [intDec] at hx
  by_cases hz : z < 0
  · rw [if_pos hz] at hx
    rcases List.mem_cons.mp hx with h45 | hmem
    · omega
    · have := natDec_digits (-z).toNat x hmem
      omega
  · rw [if_neg hz] at hx
    have := natDec_digits z.toNat x hx
    omega

theorem respHeader_nonpos_tryParse (z : Int) (hz : z ≤ 0) :
    tryParse (42 :: (intDec z ++ [13, 10])) = (some [], []) := by
  set E := intDec z with hE
  set b := 42 :: (E ++ [13, 10]) with hbdef
  have hb2 : b = (42 :: E) ++ (13 :: 10 :: ([] : Buf)) := by rw [hbdef]; simp
  have hscan0 : scanCrlf (42 :: E) 0 = none := by
    refine scanCrlf_no13 ?_ 0
    intro x hx
    rcases List.mem_cons.mp hx with h42 | hm
    · omega
    · exact intDec_no13 z x (hE ▸ hm)
  have hfind : findCrlfFrom b 0 = some (E.length + 1) := by
    rw [hb2, findCrlfFrom_zero, scanCrlf_append_first hscan0 (by simp)]
    simp [scanCrlf]
  have hslice : pySlice b 1 ((E.length + 1 : Nat) : Int) = E := by
    have hb3 : b = [42] ++ (E ++ (13 :: 10 :: ([] : Buf))) := by rw [hbdef]; simp
    rw [hb3]
    refine pySlice_extract _ _ ?_ ?_
    · simp
    · simp
      omega
  have hint : pyInt (pySlice b 1 ((E.length + 1 : Nat) : Int)) = some z := by
    rw [hslice, hE, pyInt_intDec]
  have htoNat : z.toNat = 0 := by omega
  have helems : parseElems b 0 (((E.length + 1 : Nat) : Int) + 2)
      = some ([], ((E.length + 1 : Nat) : Int) + 2) := rfl
  have hconsume : consumeBytes b (((E.length + 1 : Nat) : Int) + 2) = [] := by
    have hc : consumeBytes b (((E.length + 1 : Nat) : Int) + 2) = b.drop (E.length + 1 + 2) := by
      have h2 := consumeBytes_cast_add b (E.length + 1) 2
      simpa using h2
    rw [hc]
    refine List.drop_eq_nil_of_le ?_
    rw [hbdef]
    simp
  rw [hbdef]
  simp only [tryParse, if_pos rfl]
  rw [← hbdef]
  simp only [parseRespArray, hfind, hint, htoNat, helems, hconsume]
  exact if_pos trivial

theorem respHeader_nonpos_feed (z : Int) (hz : z ≤ 0) :
    feed [] (42 :: (intDec z ++ [13, 10])) = ([[]], []) := by
  rw [feed_nil_eq, feedLoop_succ_some (respHeader_nonpos_tryParse z hz), feedLoop_nil]

/-! ## Claim theorems -/

/-- C1: for every way of splitting `*1\r\n$4\r\nPING\r\n` into (nonempty) chunks
fed in order to a fresh parser via `feed`, the calls together yield exactly one
frame `["PING"]`: the call supplying the final byte returns it, every earlier
call returns an empty list, and the buffer ends empty. -/
theorem claim1_chunked_ping (chunks : List Buf) (hne : chunks ≠ [])
    (hnonempty : ∀ c ∈ chunks, c ≠ []) (hjoin : chunks.flatten = pingWire) :
    feedChunks [] chunks
      = (List.replicate (chunks.length - 1) [] ++ [[["PING"]]], []) :=
  feedChunks_pingWire chunks [] hne hnonempty (by simpa using hjoin)

/-- Witness for C1 at the one-byte-per-call split of `*1\r\n$4\r\nPING\r\n`. -/
theorem claim1_witness :
    feedChunks []
        [[42], [49], [13], [10], [36], [52], [13], [10], [80], [73], [78], [71], [13], [10]]
      = (List.replicate 13 [] ++ [[["PING"]]], []) := by
  have h := claim1_chunked_ping
    [[42], [49], [13], [10], [36], [52], [13], [10], [80], [73], [78], [71], [13], [10]]
    (by decide) (by decide) (by decide)
  simpa using h

/-- C2 counterexample: feeding `*abc\r\n` returns the same empty frame list as a
needs-more-data situation (`*1\r\n`), the malformed header line is consumed
(the buffer empties, i.e. the parser resynchronizes past it), and a following
frame in a later call still parses — so no fault distinguishable from
needs-more-data is surfaced and the connection is not torn down. -/
theorem claim2_counterexample :
    feed [] [42, 97, 98, 99, 13, 10] = ([], []) ∧
    (feed [] [42, 97, 98, 99, 13, 10]).1 = (feed [] [42, 49, 13, 10]).1 ∧
    feedChunks [] [[42, 97, 98, 99, 13, 10], pingWire] = ([[], [["PING"]]], []) :=
  ⟨by decide, by decide, by decide⟩

/-- C2 amended: feeding `*<x>\r\n<rest>` where the header field `x` does not
parse as an integer returns no frame and does not raise, but the parser
consumes the malformed header line (leaving exactly `rest`), returning the
same empty list as needs-more-data — the fault is not surfaced and later
bytes are parsed normally. -/
theorem claim2_amended_malformed_header (x rest : Buf)
    (hnocrlf : scanCrlf (42 :: x) 0 = none) (hbad : pyInt x = none) :
    feed [] ((42 :: x) ++ (13 :: 10 :: rest)) = ([], rest) :=
  malformedHeader_feed x rest hnocrlf hbad

/-- Witness for the amended C2 at `x = "abc"`, `rest = []`. -/
theorem claim2_witness :
    feed [] ((42 :: [97, 98, 99]) ++ (13 :: 10 :: ([] : Buf))) = ([], []) :=
  claim2_amended_malformed_header [97, 98, 99] [] (by decide) (by decide)

/-- C3 (code evaluated at the failing input): a declared bulk-string length of
`-1` (`*1\r\n$-1\r\n`) produces the frame `[""]` — the empty string — exactly
the same frame as a declared length of `0` (`*1\r\n$0\r\n\r\n`); the null bulk
string is coerced to an empty string, not modelled as an absent value (the
frame type `List String` has no absent representation at all). -/
theorem claim3_null_bulk_coerced :
    feed [] [42, 49, 13, 10, 36, 45, 49, 13, 10] = ([[""]], []) ∧
    feed [] [42, 49, 13, 10, 36, 48, 13, 10, 13, 10] = ([[""]], []) :=
  ⟨by decide, by decide⟩

/-- C4 counterexample: a single feed call does not return every extractable
frame.  An empty line preceding a complete frame ends the call's loop with no
frame returned (the frame stays in the buffer), and a bare-LF text frame
followed by a RESP frame is mangled into three frames (the call's `\r\n`
search crosses the LF boundary). -/
theorem claim4_counterexample :
    feed [] ([13, 10] ++ pingWire) = ([], pingWire) ∧
    feed [] ([65, 10] ++ pingWire) = ([["A", "*1"], ["$4"], ["PING"]], []) :=
  ⟨by decide, by decide⟩

/-- C4 amended: a single feed call repeats parse attempts until an attempt
yields no frame; for two complete frames concatenated into one call, where the
first frame is CRLF-delimited (a canonical RESP array or a CR-free
CRLF-terminated text line, not preceded by an empty line), both frames are
returned by that call, in arrival order, consuming the whole buffer. -/
theorem claim4_amended_two_frames {w1 : Buf} {f1 : Frame} {w2 : Buf} {f2 : Frame}
    (h1 : CompleteFrame w1 f1) (h2 : feed [] w2 = ([f2], [])) :
    feed [] (w1 ++ w2) = ([f1, f2], []) :=
  feed_append_complete h1 h2

/-- Witness for the amended C4: `*1\r\n$4\r\nPING\r\n` followed by `ECHO hi\r\n`. -/
theorem claim4_witness :
    feed [] (pingWire ++ [69, 67, 72, 79, 32, 104, 105, 13, 10])
      = ([["PING"], ["ECHO", "hi"]], []) := by
  have h1 : CompleteFrame pingWire ["PING"] :=
    Or.inl ⟨[[80, 73, 78, 71]], by decide, by decide⟩
  exact claim4_amended_two_frames h1 (by decide)

/-- C5: `encode_bulk_string` returns `$-1\r\n` for an absent value, and for a
present string the UTF-8 byte length (not character count), the header CRLF,
the UTF-8 payload and the trailing CRLF; `"hello"` gives `$5\r\nhello\r\n` and
the 5-character string `"héllo"` (one 2-byte character) encodes length 6. -/
theorem claim5_encode_bulk_string :
    encode_bulk_string none = [36, 45, 49, 13, 10] ∧
    (∀ s, encode_bulk_string (some s)
      = 36 :: natDec (utf8Encode s).length ++ [13, 10] ++ utf8Encode s ++ [13, 10]) ∧
    encode_bulk_string (some "hello") = utf8Encode "$5\r\nhello\r\n" ∧
    encode_bulk_string (some "héllo") = utf8Encode "$6\r\nhéllo\r\n" ∧
    "héllo".length = 5 ∧ (utf8Encode "héllo").length = 6 :=
  ⟨rfl, fun _ => rfl, by decide, by decide, by decide, by decide⟩

/-- C6: `handle_command` answers `["PING"]` with `+PONG\r\n`; `["PING", m, …]`
with the bulk-string encoding of the first argument only; `["ECHO"]` with the
absent bulk string `$-1\r\n`; and `["ECHO", a1, …, an]` with the bulk-string
encoding of all arguments joined by single spaces. -/
theorem claim6_ping_echo :
    handle_command ["PING"] = utf8Encode "+PONG\r\n" ∧
    (∀ (m : String) (rest : List String),
      handle_command ("PING" :: m :: rest) = encode_bulk_string (some m)) ∧
    handle_command ["PING", "hi"] = utf8Encode "$2\r\nhi\r\n" ∧
    handle_command ["ECHO"] = utf8Encode "$-1\r\n" ∧
    (∀ (a : String) (args : List String), handle_command ("ECHO" :: a :: args)
      = encode_bulk_string (some (String.intercalate " " (a :: args)))) ∧
    handle_command ["ECHO", "a", "b"] = utf8Encode "$3\r\na b\r\n" := by
  refine ⟨by decide, ?_, by decide, by decide, ?_, by decide⟩
  · intro m rest
    have hP : pyUpper "PING" = "PING" := by decide
    simp [handle_command, hP, handle_ping]
  · intro a args
    have hE : pyUpper "ECHO" = "ECHO" := by decide
    simp [handle_command, hE, handle_echo]

/-- C7: the empty frame gets the `empty command` error reply; any frame whose
uppercased first element is neither `PING` nor `ECHO` gets
`-ERR unknown command '<NAME>'\r\n` (with the uppercased name) rather than
raising; and lookup of `PING`/`ECHO` succeeds whenever the first element
uppercases to them, regardless of its original case. -/
theorem claim7_dispatch :
    handle_command [] = encode_error "empty command" ∧
    handle_command [] = utf8Encode "-ERR empty command\r\n" ∧
    (∀ (name : String) (args : List String),
      pyUpper name ≠ "PING" → pyUpper name ≠ "ECHO" →
      handle_command (name :: args)
        = encode_error ("unknown command \x27" ++ pyUpper name ++ "\x27")) ∧
    handle_command ["FOO"] = utf8Encode "-ERR unknown command \x27FOO\x27\r\n" ∧
    (∀ (name : String) (args : List String), pyUpper name = "PING" →
      handle_command (name :: args) = handle_ping args) ∧
    (∀ (name : String) (args : List String), pyUpper name = "ECHO" →
      handle_command (name :: args) = handle_echo args) := by
  refine ⟨rfl, by decide, ?_, by decide, ?_, ?_⟩
  · intro name args h1 h2
    simp [handle_command, h1, h2]
  · intro name args h
    simp [handle_command, h]
  · intro name args h
    simp [handle_command, h]

/-- Witness for C7 at the lowercase unknown command `foo`. -/
theorem claim7_witness :
    handle_command ["foo"] = encode_error ("unknown command \x27" ++ pyUpper "foo" ++ "\x27") :=
  claim7_dispatch.2.2.1 "foo" [] (by decide) (by decide)

/-- C8: whenever a RESP frame is not yet fully present in the buffer (the
combined buffer is a strict prefix of a well-formed wire frame: header or
bulk-string terminator not yet arrived, or fewer payload bytes than declared),
or a text line has no terminator yet, `feed` returns no frame and leaves the
buffer exactly as it was plus the newly appended bytes; nothing is consumed. -/
theorem claim8_needs_more_data :
    (∀ (s d : Buf) (ps : List Buf), (s ++ d) <+: respWire ps → s ++ d ≠ respWire ps →
      feed s d = ([], s ++ d)) ∧
    (∀ s d : Buf, (s ++ d).head? ≠ some 42 → 10 ∉ s ++ d → feed s d = ([], s ++ d)) := by
  constructor
  · intro s d ps hp hne
    rw [feed_def]
    exact feedLoop_succ_none (tryParseRespPrefixNone ps (s ++ d) hp hne) _
  · intro s d hhead h10
    rw [feed_def]
    exact feedLoop_succ_none (tryParse_text_noNewline hhead h10) _

/-- Witness for C8: a parser holding `*1\r\n` receives `$4\r\nPI` — still
incomplete, so no frame and the buffer keeps every byte. -/
theorem claim8_witness :
    feed [42, 49, 13, 10] [36, 52, 13, 10, 80, 73]
      = ([], [42, 49, 13, 10, 36, 52, 13, 10, 80, 73]) := by
  have h := claim8_needs_more_data.1 [42, 49, 13, 10] [36, 52, 13, 10, 80, 73]
    [[80, 73, 78, 71]] (by decide) (by decide)
  simpa using h

/-- C9: when the buffer does not start with `*`, parsing falls back to the
line-oriented protocol: with no newline present it returns no frame and keeps
the buffer; with a `\r\n` present (preferred over a bare `\n`) it decodes the
first line, strips it, splits it on whitespace and consumes through the
terminator; with only a bare `\n` it does the same consuming one terminator
byte; an empty or all-whitespace line yields no frame (but is consumed). -/
theorem claim9_text_protocol :
    (∀ b : Buf, b ≠ [] → b.head? ≠ some 42 → tryParse b = parseTextProtocol b) ∧
    (∀ b : Buf, 10 ∉ b → parseTextProtocol b = (none, b)) ∧
    (∀ (b : Buf) (e : Nat), findCrlfFrom b 0 = some e →
      parseTextProtocol b
        = (if pyStrip (decodeUtf8 (b.take e)) ≠ "" then
            some (pySplit (pyStrip (decodeUtf8 (b.take e)))) else none, b.drop (e + 2))) ∧
    (∀ (b : Buf) (e : Nat), findCrlfFrom b 0 = none → findByte b 10 = some e →
      parseTextProtocol b
        = (if pyStrip (decodeUtf8 (b.take e)) ≠ "" then
            some (pySplit (pyStrip (decodeUtf8 (b.take e)))) else none, b.drop (e + 1))) := by
  refine ⟨?_, ?_, ?_, ?_⟩
  · intro b hne hhead
    cases b with
    | nil => exact absurd rfl hne
    | cons c rest =>
      have hc : ¬c = 42 := by simpa using hhead
      simp only [tryParse, if_neg hc]
  · intro b h10
    exact parseTextProtocol_noNewline h10
  · intro b e h
    exact parseTextProtocol_crlf h
  · intro b e h1 h2
    exact parseTextProtocol_lf h1 h2

/-- Witness for C9: `ECHO hi\r\n` parses into the frame `["ECHO", "hi"]`,
consuming through the CRLF. -/
theorem claim9_witness :
    parseTextProtocol (utf8Encode "ECHO hi\r\n") = (some ["ECHO", "hi"], []) := by
  have h := claim9_text_protocol.2.2.1 (utf8Encode "ECHO hi\r\n") 7 (by decide)
  rw [h]
  decide

/-- C10: every RESP array header with a non-positive declared count (`*0\r\n`,
`*-1\r\n`, …) is consumed whole and yields the empty frame `[]`, which
`handle_command` answers with the `empty command` error reply rather than
crashing. -/
theorem claim10_nonpositive_count :
    (∀ z : Int, z ≤ 0 → feed [] (42 :: (intDec z ++ [13, 10])) = ([[]], [])) ∧
    handle_command [] = utf8Encode "-ERR empty command\r\n" :=
  ⟨fun z hz => respHeader_nonpos_feed z hz, by decide⟩

/-- Witness for C10 at `*0\r\n` and `*-1\r\n`. -/
theorem claim10_witness :
    feed [] (42 :: (intDec 0 ++ [13, 10])) = ([[]], []) ∧
    feed [] (42 :: (intDec (-1) ++ [13, 10])) = ([[]], []) :=
  ⟨claim10_nonpositive_count.1 0 (by omega), claim10_nonpositive_count.1 (-1) (by omega)⟩
